import Mathlib

/-!
Shallow embedding of the fan-out/fan-in orchestration core of
`firmware_slap/celery_tasks.py`: the dispatcher loops in `async_and_iter`
and `async_and_iter_clusters`, the polling loops, the result-collection
comprehension, the convergence tracker `check_iter_status`, and the
reporter `display_scores_list`.

Celery's `AsyncResult` handles are modelled by a job state
(pending / success / failure) together with the value that
`get(propagate=False)` returns.  `ready()` is true exactly on the
terminal states, `successful()` on success, `failed()` on failure.
Time-dependent behaviour (a handle observed across polling iterations)
is modelled by a trace `Nat → AsyncResult R`: the state of the handle at
each polling iteration; one loop iteration advances time by one (the
`time.sleep` call).  The polling loops are given explicit fuel since the
source loops need not terminate.
-/

/-- State of a Celery task as observed through its handle. -/
inductive JobState where
  | pending
  | success
  | failure
deriving DecidableEq, Repr

/-- A snapshot of a Celery `AsyncResult` handle: its state and the value
`get(propagate=False)` would return (for a failed task this is the
exception object; the code only ever reads `get` of non-failed handles). -/
structure AsyncResult (R : Type) where
  state : JobState
  value : R
deriving DecidableEq, Repr

namespace AsyncResult

/-- Python `x.successful()`. -/
def successful (x : AsyncResult R) : Bool := x.state = JobState.success

/-- Python `x.failed()`. -/
def failed (x : AsyncResult R) : Bool := x.state = JobState.failure

/-- Python `x.ready()`: the task is in a terminal state. -/
def ready (x : AsyncResult R) : Bool := x.successful || x.failed

/-- Python `x.get(propagate=False)`. -/
def get (x : AsyncResult R) : R := x.value

end AsyncResult

/-- A handle observed over time: iteration `t` of a polling loop sees
`h t`.  Celery task states move monotonically to a terminal state; that
assumption enters theorems as the `terminalStable` hypothesis. -/
def Trace (R : Type) : Type := Nat → AsyncResult R

/-- Once terminal, a handle keeps its state and value forever. -/
def terminalStable (h : Trace R) : Prop :=
  ∀ t, (h t).ready = true → h (t + 1) = h t

/-- Guard `all([x.successful() or x.failed() for x in async_funcs])` at
iteration `t` (the loop guards of both pollers). -/
def allTerminal (hs : List (Trace R)) (t : Nat) : Bool :=
  hs.all (fun h => (h t).ready)

/-- Count `done_count = len([... for x in async_funcs if x.successful() or x.failed()])`
at iteration `t`. -/
def doneCount (hs : List (Trace R)) (t : Nat) : Nat :=
  hs.countP (fun h => (h t).ready)

/-- Comprehension `[x.get(propagate=False) for x in async_funcs if not x.failed()]`:
the result-collection comprehension that ends both `async_and_iter` and
`async_and_iter_clusters`. -/
def collect (hs : List (AsyncResult R)) : List R :=
  (hs.filter (fun x => !x.failed)).map AsyncResult.get

/-- The submission loop shared by both workflows:
`for item in async_list: async_funcs.append(async_function.delay(item))`.
`async_function` stands for `async_function.delay`, returning the future
behaviour of the submitted job's handle. -/
def submitAll (async_function : I → Trace R) (async_list : List I) :
    List (Trace R) :=
  async_list.foldl (fun acc item => acc ++ [async_function item]) []

/-- The `while not all(...)` loop of `async_and_iter` starting at
iteration `t` with `fuel` iterations allowed.  Returns the list of
`done_count` values passed (cumulatively) to the progress bar by
`bar.update(done_count - bar.n)`, one per executed loop body, and
`some exitTime` when the guard became false within the fuel. -/
def pollLoop (hs : List (Trace R)) (t fuel : Nat) : List Nat × Option Nat :=
  match fuel with
  | 0 => ([], none)
  | fuel + 1 =>
    if allTerminal hs t then ([], some t)
    else
      let c := doneCount hs t
      let r := pollLoop hs (t + 1) fuel
      (c :: r.1, r.2)

/-- Function `async_and_iter(async_function, async_list)`: submit one job per
item, poll until every handle is terminal, then collect the non-failed
results.  Returns the progress reports and `some results` when the loop
exits within the fuel (`none` models a loop still running). -/
def async_and_iter (async_function : I → Trace R) (async_list : List I)
    (fuel : Nat) : List Nat × Option (List R) :=
  let async_funcs := submitAll async_function async_list
  let p := pollLoop async_funcs 0 fuel
  match p.2 with
  | none => (p.1, none)
  | some t => (p.1, some (collect (async_funcs.map (fun h => h t))))

/-- The dictionary `{'count': ..., 'score': ..., 'labels': ...}` produced
by `async_get_single_cluster` (labels converted to a plain list by
`tolist()`).  The silhouette score, a Python float, is modelled as an
integer-valued rational stand-in `Int`: every claim about it concerns
only value equality and ordering.  Python `==` on these dicts is
field-wise value equality, i.e. `DecidableEq`. -/
structure ResultRecord where
  count : Nat
  score : Int
  labels : List Int
deriving DecidableEq, Repr

/-- Names bound at module level in `celery_tasks.py` (imports, module
globals, decorated tasks and plain functions), in source order.  These
are what a global name lookup inside a function of the module can see. -/
def moduleGlobals : List String :=
  ["logging", "time", "List", "Dict", "Any", "Celery", "colored", "tqdm",
   "do_trace", "process", "fh", "fhc", "gh", "c_config", "logger",
   "formatter", "console_handler", "app", "async_trace_func",
   "async_get_arg_funcs", "async_get_funcs", "async_get_single_cluster",
   "async_get_sparse_file_data", "async_trim_funcs", "async_and_iter",
   "async_and_iter_clusters", "check_iter_status", "display_scores_list"]

/-- A Python runtime error, as far as this embedding needs one. -/
inductive PyErr where
  | nameError (n : String)
deriving DecidableEq, Repr

/-- Resolution of a free (non-local, non-builtin) name inside a function
of `celery_tasks.py`: found among the module's globals, or `NameError`. -/
def lookupGlobal (n : String) : Except PyErr Unit :=
  if n ∈ moduleGlobals then Except.ok () else Except.error (PyErr.nameError n)

/-- What one call of `display_scores_list` does, observably: the table
rows printed (as the records behind them, in print order), the
`plot_list` computed for the plot branch (if that branch ran), and the
error the call raises (if any).  Cell formatting — the fixed-width
row template and the `str(score)[:6]` truncation — is abstracted to the
row's record. -/
structure DisplayOut where
  table : List ResultRecord
  plotList : Option (List ResultRecord)
  err : Option PyErr
deriving DecidableEq, Repr

/-- Function `display_scores_list(done_list, per_row=2, plot_it=True)`.
`temp_list = sorted(done_list, key=lambda k: k['score'])` is Python's
stable ascending sort, i.e. `mergeSort`; the table prints `temp_list` in
order.  When `plot_it`, `plot_list = sorted(done_list, key=lambda k:
k['count'])` is computed and then `plt.ion()` looks up the free name
`plt` (not a local, not in `moduleGlobals`, not a builtin), which
decides whether the call raises.  `sorted` returns a fresh list,
so `done_list` itself is untouched, which the pure embedding reflects. -/
def display_scores_list (done_list : List ResultRecord) (per_row : Nat)
    (plot_it : Bool) : DisplayOut :=
  let temp_list := done_list.mergeSort (fun a b => a.score ≤ b.score)
  if plot_it then
    let plot_list := done_list.mergeSort (fun a b => a.count ≤ b.count)
    match lookupGlobal "plt" with
    | Except.ok _ => ⟨temp_list, some plot_list, none⟩
    | Except.error e => ⟨temp_list, some plot_list, some e⟩
  else ⟨temp_list, none, none⟩

/-- The deduplicating append loop of `check_iter_status`:
`for item in ret: if item not in done_list: done_list.append(item);
display_scores = True`, folding over `ret` with state
`(done_list, display_scores)`. -/
def sweepStep [DecidableEq R] (acc : List R × Bool) (item : R) :
    List R × Bool :=
  if item ∈ acc.1 then acc else (acc.1 ++ [item], true)

/-- Comprehension `ret = [x.get(propagate=False) for x in [y for y in async_items if
y.ready()] if not x.failed()]`: the freshly readable results. -/
def readyResults (async_items : List (AsyncResult R)) : List R :=
  ((async_items.filter (fun y => y.ready)).filter
      (fun x => !x.failed)).map AsyncResult.get

/-- Function `check_iter_status(async_items, done_list)`.  First component: the
returned `done_list`.  Second component: the observable outcome of the
`if display_scores: display_scores_list(done_list)` call — `some` output
exactly when the Reporter was invoked (the call uses the defaults
`per_row=2, plot_it=True`). -/
def check_iter_status (async_items : List (AsyncResult ResultRecord))
    (done_list : List ResultRecord) :
    List ResultRecord × Option DisplayOut :=
  let s := (readyResults async_items).foldl sweepStep (done_list, false)
  (s.1, if s.2 then some (display_scores_list s.1 2 true) else none)

/-- Python `range(2, max_centroid)`. -/
def pyRangeFrom2 (max_centroid : Nat) : List Nat :=
  List.range' 2 (max_centroid - 2)

/-- The submission loop of `async_and_iter_clusters`:
`for item in range(2, max_centroid):
async_get_single_cluster.delay(all_functions, item)`.  The backend
argument stands for `async_get_single_cluster.delay`. -/
def submitClusters (backend : A → Nat → Trace ResultRecord)
    (all_functions : A) (max_centroid : Nat) : List (Trace ResultRecord) :=
  (pyRangeFrom2 max_centroid).foldl
    (fun acc item => acc ++ [backend all_functions item]) []

/-- The argument pairs those submissions carry, in submission order. -/
def clusterJobArgs (all_functions : A) (max_centroid : Nat) :
    List (A × Nat) :=
  (pyRangeFrom2 max_centroid).map (fun item => (all_functions, item))

/-- The `while not all(...)` loop of `async_and_iter_clusters` starting
at iteration `t` with `done_list` accumulated so far.  Each iteration
runs `done_list = check_iter_status(async_funcs, done_list)` and sleeps.
An error raised inside a Reporter invocation propagates out of
`check_iter_status` and aborts the loop on the spot (no `try` surrounds
the call in the source).  Returns the `done_list` state when the loop
stops, the Reporter invocations made (in order, the aborting one last),
and the way the loop ended within the fuel: `some (Except.ok exitTime)`
for the guard becoming false, `some (Except.error e)` for an abort by a
raised error, `none` for fuel running out with the loop still going. -/
def clusterLoop (hs : List (Trace ResultRecord))
    (done_list : List ResultRecord) (t fuel : Nat) :
    List ResultRecord × List DisplayOut × Option (Except PyErr Nat) :=
  match fuel with
  | 0 => (done_list, [], none)
  | fuel + 1 =>
    if allTerminal hs t then (done_list, [], some (Except.ok t))
    else
      let c := check_iter_status (hs.map (fun h => h t)) done_list
      match c.2 with
      | some out =>
        match out.err with
        | some e => (c.1, [out], some (Except.error e))
        | none =>
          let r := clusterLoop hs c.1 (t + 1) fuel
          (r.1, out :: r.2.1, r.2.2)
      | none =>
        let r := clusterLoop hs c.1 (t + 1) fuel
        (r.1, r.2.1, r.2.2)

/-- Function `async_and_iter_clusters(all_functions, max_centroid)`: submit one
clustering job per `range(2, max_centroid)` value, poll with incremental
reporting, then collect the non-failed results.  Returns the Reporter
invocations made, and — when the loop ended within the fuel — either
`Except.ok results` for a normal exit or `Except.error e` for an error
raised by a Reporter invocation and propagating out of the function. -/
def async_and_iter_clusters (backend : A → Nat → Trace ResultRecord)
    (all_functions : A) (max_centroid : Nat) (fuel : Nat) :
    List DisplayOut × Option (Except PyErr (List ResultRecord)) :=
  let async_funcs := submitClusters backend all_functions max_centroid
  let r := clusterLoop async_funcs [] 0 fuel
  match r.2.2 with
  | none => (r.2.1, none)
  | some (Except.error e) => (r.2.1, some (Except.error e))
  | some (Except.ok t) =>
    (r.2.1, some (Except.ok (collect (async_funcs.map (fun h => h t)))))

/-! ### Concrete handles and traces used to instantiate theorems -/

/-- A result as produced by one clustering job. -/
def recA : ResultRecord := ⟨2, 41, [0, 1]⟩

/-- Another clustering result, a different cluster count and score. -/
def recB : ResultRecord := ⟨3, 55, [0, 1, 2]⟩

/-- A handle whose job succeeded with `recA`. -/
def handleDoneA : AsyncResult ResultRecord := ⟨JobState.success, recA⟩

/-- A handle whose job succeeded with `recB`. -/
def handleDoneB : AsyncResult ResultRecord := ⟨JobState.success, recB⟩

/-- A handle whose job failed (its `get` value models the exception). -/
def handleFailed : AsyncResult ResultRecord := ⟨JobState.failure, recB⟩

/-- A handle whose job is still pending. -/
def handlePending : AsyncResult ResultRecord := ⟨JobState.pending, recB⟩

/-- A job pending at iteration 0 and successful from iteration 1 on. -/
def traceLate : Trace ResultRecord :=
  fun t => if t = 0 then handlePending else handleDoneA

/-- A job already successful at iteration 0. -/
def traceNow : Trace ResultRecord := fun _ => handleDoneA

/-- A job that never reaches a terminal state. -/
def traceNever : Trace ResultRecord := fun _ => handlePending

/-! ### Helper lemmas about the deduplicating sweep -/

/-- The list component of the sweep fold, taken alone. -/
def dedupAppend [DecidableEq R] (l : List R) (ret : List R) : List R :=
  ret.foldl (fun acc item => if item ∈ acc then acc else acc ++ [item]) l

theorem foldl_sweepStep_fst [DecidableEq R] (ret : List R) (l : List R)
    (b : Bool) : (ret.foldl sweepStep (l, b)).1 = dedupAppend l ret := by
  induction ret generalizing l b with
  | nil => rfl
  | cons r rs ih =>
    simp only [List.foldl_cons, sweepStep, dedupAppend]
    by_cases h : r ∈ l <;> simp [h, ih, dedupAppend]

theorem foldl_sweepStep_snd_true [DecidableEq R] (ret : List R)
    (l : List R) : (ret.foldl sweepStep (l, true)).2 = true := by
  induction ret generalizing l with
  | nil => rfl
  | cons r rs ih =>
    simp only [List.foldl_cons, sweepStep]
    by_cases h : r ∈ l <;> simp [h, ih]

theorem foldl_sweepStep_snd [DecidableEq R] (ret : List R) (l : List R) :
    (ret.foldl sweepStep (l, false)).2 = true ↔ ∃ r ∈ ret, r ∉ l := by
  induction ret generalizing l with
  | nil => simp
  | cons r rs ih =>
    simp only [List.foldl_cons, sweepStep]
    by_cases h : r ∈ l
    · simp only [h, if_pos]
      rw [ih]
      constructor
      · rintro ⟨x, hx, hxl⟩; exact ⟨x, List.mem_cons_of_mem _ hx, hxl⟩
      · rintro ⟨x, hx, hxl⟩
        rcases List.mem_cons.mp hx with rfl | hx
        · exact absurd h hxl
        · exact ⟨x, hx, hxl⟩
    · simp only [h, if_neg, not_false_iff, foldl_sweepStep_snd_true]
      exact ⟨fun _ => ⟨r, List.mem_cons_self r rs, h⟩, fun _ => trivial⟩

theorem dedupAppend_exists_append [DecidableEq R] (ret : List R)
    (l : List R) : ∃ new, dedupAppend l ret = l ++ new := by
  induction ret generalizing l with
  | nil => exact ⟨[], (List.append_nil l).symm⟩
  | cons r rs ih =>
    simp only [dedupAppend, List.foldl_cons]
    by_cases h : r ∈ l
    · simpa [h] using ih l
    · rcases ih (l ++ [r]) with ⟨new, hnew⟩
      refine ⟨[r] ++ new, ?_⟩
      simp only [h, if_neg, not_false_iff]
      rw [← List.append_assoc] at *
      exact hnew

theorem mem_left_dedupAppend [DecidableEq R] (ret : List R) (l : List R)
    (r : R) (h : r ∈ l) : r ∈ dedupAppend l ret := by
  rcases dedupAppend_exists_append ret l with ⟨new, hnew⟩
  rw [hnew]
  exact List.mem_append_left _ h

theorem mem_ret_dedupAppend [DecidableEq R] (ret : List R) (l : List R)
    (r : R) (h : r ∈ ret) : r ∈ dedupAppend l ret := by
  induction ret generalizing l with
  | nil => cases h
  | cons x xs ih =>
    simp only [dedupAppend, List.foldl_cons]
    rcases List.mem_cons.mp h with rfl | hx
    · by_cases hxl : r ∈ l
      · simpa [hxl] using mem_left_dedupAppend xs l r hxl
      · simp only [hxl, if_neg, not_false_iff]
        exact mem_left_dedupAppend xs (l ++ [r]) r
          (List.mem_append_right _ (List.mem_singleton_self r))
    · by_cases hxl : x ∈ l <;> simp only [hxl, if_pos, if_neg, not_false_iff]
      · exact ih l hx
      · exact ih (l ++ [x]) hx

theorem dedupAppend_eq_self [DecidableEq R] (ret : List R) (l : List R)
    (h : ∀ r ∈ ret, r ∈ l) : dedupAppend l ret = l := by
  induction ret generalizing l with
  | nil => rfl
  | cons x xs ih =>
    simp only [dedupAppend, List.foldl_cons, h x (List.mem_cons_self x xs),
      if_pos]
    exact ih l (fun r hr => h r (List.mem_cons_of_mem _ hr))

theorem dedupAppend_nodup [DecidableEq R] (ret : List R) (l : List R)
    (h : l.Nodup) : (dedupAppend l ret).Nodup := by
  induction ret generalizing l with
  | nil => exact h
  | cons x xs ih =>
    simp only [dedupAppend, List.foldl_cons]
    by_cases hxl : x ∈ l
    · simpa [hxl] using ih l h
    · simp only [hxl, if_neg, not_false_iff]
      refine ih (l ++ [x]) ?_
      simp [List.nodup_append, h, hxl]

/-! ### Helper lemmas about the polling loops -/

theorem terminalStable_frozen {h : Trace R} (hs : terminalStable h)
    {t t' : Nat} (hle : t ≤ t') (hr : (h t).ready = true) : h t' = h t := by
  induction t' with
  | zero =>
    cases Nat.le_zero.mp hle
    rfl
  | succ n ih =>
    rcases Nat.lt_or_ge t (n + 1) with hlt | hge
    · have hn : t ≤ n := Nat.lt_succ_iff.mp hlt
      rw [hs n (by rw [ih hn]; exact hr), ih hn]
    · cases Nat.le_antisymm hle hge
      rfl

theorem doneCount_mono {hs : List (Trace R)}
    (hst : ∀ h ∈ hs, terminalStable h) (t : Nat) :
    doneCount hs t ≤ doneCount hs (t + 1) := by
  refine List.countP_mono_left (fun h hmem hr => ?_)
  rw [terminalStable_frozen (hst h hmem) (Nat.le_succ t)
    (by simpa using hr)]
  simpa using hr

theorem doneCount_lt_length {hs : List (Trace R)} {t : Nat}
    (hna : allTerminal hs t = false) : doneCount hs t < hs.length := by
  have hne : ¬∀ h ∈ hs, (h t).ready = true := by
    intro hall
    rw [show allTerminal hs t = true from List.all_eq_true.mpr
      (fun h hm => hall h hm)] at hna
    cases hna
  have hle : doneCount hs t ≤ hs.length := List.countP_le_length _
  rcases Nat.lt_or_ge (doneCount hs t) hs.length with hlt | hge
  · exact hlt
  · exfalso
    apply hne
    have heq : hs.countP (fun h => (h t).ready) = hs.length :=
      Nat.le_antisymm hle hge
    intro h hm
    exact List.countP_eq_length.mp heq h hm

theorem pollLoop_reports_shape (hs : List (Trace R)) (t fuel : Nat) :
    (pollLoop hs t fuel).1 = [] ∨
      ∃ rest, (pollLoop hs t fuel).1 = doneCount hs t :: rest := by
  cases fuel with
  | zero => exact Or.inl rfl
  | succ f =>
    by_cases hat : allTerminal hs t
    · exact Or.inl (by simp [pollLoop, hat])
    · exact Or.inr ⟨(pollLoop hs (t + 1) f).1, by simp [pollLoop, hat]⟩

theorem pollLoop_reports_chain {hs : List (Trace R)}
    (hst : ∀ h ∈ hs, terminalStable h) (t fuel : Nat) :
    List.Chain' (· ≤ ·) (pollLoop hs t fuel).1 := by
  induction fuel generalizing t with
  | zero => exact List.chain'_nil
  | succ f ih =>
    by_cases hat : allTerminal hs t
    · simp [pollLoop, hat]
    · simp only [pollLoop, hat, if_neg, Bool.false_eq_true, not_false_iff]
      refine List.Chain'.cons' (ih (t + 1)) ?_
      intro b hb
      rcases pollLoop_reports_shape hs (t + 1) f with hnil | ⟨rest, hsh⟩
      · rw [hnil] at hb; cases hb
      · rw [hsh] at hb
        simp only [List.head?_cons, Option.mem_def, Option.some.injEq] at hb
        rw [← hb]
        exact doneCount_mono hst t

theorem pollLoop_reports_lt {hs : List (Trace R)} (t fuel : Nat) :
    ∀ c ∈ (pollLoop hs t fuel).1, c < hs.length := by
  induction fuel generalizing t with
  | zero => intro c hc; cases hc
  | succ f ih =>
    by_cases hat : allTerminal hs t
    · simp [pollLoop, hat]
    · simp only [pollLoop, hat, if_neg, Bool.false_eq_true, not_false_iff]
      intro c hc
      rcases List.mem_cons.mp hc with rfl | hc
      · exact doneCount_lt_length (Bool.eq_false_iff.mpr hat)
      · exact ih (t + 1) c hc

theorem pollLoop_exits_of_allTerminal {hs : List (Trace R)} (k : Nat) :
    ∀ t, allTerminal hs (t + k) = true →
      (pollLoop hs t (k + 1)).2.isSome = true := by
  induction k with
  | zero =>
    intro t hat
    rw [Nat.add_zero] at hat
    simp [pollLoop, hat]
  | succ k ih =>
    intro t hat
    by_cases h0 : allTerminal hs t
    · simp [pollLoop, h0]
    · simp only [pollLoop, h0, if_neg, Bool.false_eq_true, not_false_iff]
      exact ih (t + 1) (by rw [show t + 1 + k = t + (k + 1) by omega]; exact hat)

theorem pollLoop_stuck {hs : List (Trace R)} {h : Trace R} (hmem : h ∈ hs)
    (hnever : ∀ t, (h t).ready = false) (t fuel : Nat) :
    (pollLoop hs t fuel).2 = none := by
  induction fuel generalizing t with
  | zero => rfl
  | succ f ih =>
    have hat : allTerminal hs t = false := by
      apply Bool.eq_false_iff.mpr
      intro hall
      have := List.all_eq_true.mp hall h hmem
      rw [hnever t] at this
      cases this
    simp only [pollLoop, hat, Bool.false_eq_true, if_neg, not_false_iff]
    exact ih (t + 1)

theorem check_iter_status_fst (async_items : List (AsyncResult ResultRecord))
    (done_list : List ResultRecord) :
    (check_iter_status async_items done_list).1 =
      dedupAppend done_list (readyResults async_items) := by
  simp only [check_iter_status]
  exact foldl_sweepStep_fst _ _ _

theorem check_iter_status_snd_isSome
    (async_items : List (AsyncResult ResultRecord))
    (done_list : List ResultRecord) :
    (check_iter_status async_items done_list).2.isSome =
      ((readyResults async_items).foldl sweepStep (done_list, false)).2 := by
  simp only [check_iter_status]
  by_cases hb :
      ((readyResults async_items).foldl sweepStep (done_list, false)).2 = true <;>
    simp [hb]

theorem exists_allTerminal {hs : List (Trace R)}
    (hst : ∀ h ∈ hs, terminalStable h)
    (hev : ∀ h ∈ hs, ∃ t, (h t).ready = true) :
    ∃ T, allTerminal hs T = true := by
  induction hs with
  | nil => exact ⟨0, rfl⟩
  | cons h tl ih =>
    rcases ih (fun x hx => hst x (List.mem_cons_of_mem _ hx))
      (fun x hx => hev x (List.mem_cons_of_mem _ hx)) with ⟨T, hT⟩
    rcases hev h (List.mem_cons_self h tl) with ⟨t0, ht0⟩
    refine ⟨max t0 T, List.all_eq_true.mpr ?_⟩
    intro x hx
    rcases List.mem_cons.mp hx with rfl | hx
    · rw [terminalStable_frozen (hst x (List.mem_cons_self x tl))
        (Nat.le_max_left t0 T) ht0]
      exact ht0
    · have hxr := List.all_eq_true.mp hT x hx
      rw [terminalStable_frozen (hst x (List.mem_cons_of_mem _ hx))
        (Nat.le_max_right t0 T) (by simpa using hxr)]
      simpa using hxr

/-! ### Claim theorems -/

/-- C1: one sweep of `check_iter_status` invokes the Reporter (and the
`display_scores` flag holds) if and only if some handle that is terminal
and not failed yields a result not value-equal to any entry already in
`done_list`; when no such new result exists, the Reporter is not invoked
and `done_list` is returned unchanged. -/
theorem check_iter_status_triggering
    (async_items : List (AsyncResult ResultRecord))
    (done_list : List ResultRecord) :
    ((check_iter_status async_items done_list).2.isSome = true ↔
      ∃ x ∈ async_items, x.ready = true ∧ x.failed = false ∧
        x.get ∉ done_list) ∧
    ((check_iter_status async_items done_list).2.isSome = false →
      (check_iter_status async_items done_list).1 = done_list) := by
  have hmem : (∃ r ∈ readyResults async_items, r ∉ done_list) ↔
      ∃ x ∈ async_items, x.ready = true ∧ x.failed = false ∧
        x.get ∉ done_list := by
    simp only [readyResults, List.mem_map, List.mem_filter,
      Bool.not_eq_true']
    constructor
    · rintro ⟨r, ⟨x, ⟨⟨hx, hr⟩, hf⟩, rfl⟩, hnd⟩
      exact ⟨x, hx, hr, hf, hnd⟩
    · rintro ⟨x, hx, hr, hf, hnd⟩
      exact ⟨x.get, ⟨x, ⟨⟨hx, hr⟩, hf⟩, rfl⟩, hnd⟩
  constructor
  · rw [check_iter_status_snd_isSome, foldl_sweepStep_snd]
    exact hmem
  · intro hnone
    rw [check_iter_status_snd_isSome] at hnone
    rw [check_iter_status_fst]
    apply dedupAppend_eq_self
    intro r hr
    by_contra hrd
    have := (foldl_sweepStep_snd (readyResults async_items) done_list).mpr
      ⟨r, hr, hrd⟩
    rw [hnone] at this
    cases this

/-- C1, instantiated: a successful handle carrying a result absent from
the seen-list triggers the Reporter; with the result already seen, the
Reporter stays silent and the seen-list is returned as it was. -/
theorem check_iter_status_triggering_holds :
    ((check_iter_status [handleDoneA, handleFailed] [recB]).2.isSome = true ↔
      ∃ x ∈ [handleDoneA, handleFailed], x.ready = true ∧ x.failed = false ∧
        x.get ∉ [recB]) ∧
    ((check_iter_status [handleDoneA, handleFailed] [recB]).2.isSome = false →
      (check_iter_status [handleDoneA, handleFailed] [recB]).1 = [recB]) :=
  check_iter_status_triggering [handleDoneA, handleFailed] [recB]

/-- C4: starting from a duplicate-free seen-list, `check_iter_status`
returns a duplicate-free list that extends the input by appending only
(existing entries and their order preserved), and re-applying the sweep
with the same handles returns that list unchanged with no Reporter
invocation. -/
theorem check_iter_status_seen_invariant
    (async_items : List (AsyncResult ResultRecord))
    (done_list : List ResultRecord) (hnd : done_list.Nodup) :
    (check_iter_status async_items done_list).1.Nodup ∧
    (∃ new, (check_iter_status async_items done_list).1 =
      done_list ++ new) ∧
    check_iter_status async_items
        (check_iter_status async_items done_list).1 =
      ((check_iter_status async_items done_list).1, none) := by
  rw [check_iter_status_fst]
  refine ⟨dedupAppend_nodup _ _ hnd, dedupAppend_exists_append _ _, ?_⟩
  have hall : ∀ r ∈ readyResults async_items,
      r ∈ dedupAppend done_list (readyResults async_items) :=
    fun r hr => mem_ret_dedupAppend _ _ r hr
  have hsnd : ((readyResults async_items).foldl sweepStep
      (dedupAppend done_list (readyResults async_items), false)).2 = false := by
    rw [Bool.eq_false_iff]
    intro htrue
    rcases (foldl_sweepStep_snd _ _).mp htrue with ⟨r, hr, hrd⟩
    exact hrd (hall r hr)
  rw [Prod.ext_iff]
  constructor
  · rw [check_iter_status_fst]
    exact dedupAppend_eq_self _ _ hall
  · have hiss := check_iter_status_snd_isSome async_items
      (dedupAppend done_list (readyResults async_items))
    rw [hsnd] at hiss
    exact Option.not_isSome_iff_eq_none.mp (by rw [hiss]; exact Bool.false_ne_true)

/-- C4, instantiated at a one-entry duplicate-free seen-list and a batch
holding one successful and one failed handle. -/
theorem check_iter_status_seen_invariant_holds :
    ([recB] : List ResultRecord).Nodup ∧
    ((check_iter_status [handleDoneA, handleFailed] [recB]).1.Nodup ∧
     (∃ new, (check_iter_status [handleDoneA, handleFailed] [recB]).1 =
       [recB] ++ new) ∧
     check_iter_status [handleDoneA, handleFailed]
         (check_iter_status [handleDoneA, handleFailed] [recB]).1 =
       ((check_iter_status [handleDoneA, handleFailed] [recB]).1, none)) :=
  ⟨by decide,
   check_iter_status_seen_invariant [handleDoneA, handleFailed] [recB]
     (by decide)⟩

theorem foldl_append_map {A B : Type} (f : A → B) (l : List A)
    (acc : List B) :
    l.foldl (fun acc item => acc ++ [f item]) acc = acc ++ l.map f := by
  induction l generalizing acc with
  | nil => simp
  | cons x xs ih => simp [ih]

/-- C2: on a batch in which every handle is terminal, the collection
comprehension returns exactly the `get` values of the non-failed
(equivalently, successful) handles, keeping submission order and
skipping failed handles without placeholders, so its length is the
number of non-failed handles. -/
theorem collect_terminal_batch {R : Type} (hs : List (AsyncResult R))
    (hterm : ∀ x ∈ hs, x.ready = true) :
    collect hs = (hs.filter (fun x => x.successful)).map AsyncResult.get ∧
    (collect hs).length = hs.countP (fun x => !x.failed) ∧
    (collect hs).Sublist (hs.map AsyncResult.get) := by
  refine ⟨?_, ?_, ?_⟩
  · unfold collect
    congr 1
    refine List.filter_congr (fun x hx => ?_)
    have hr := hterm x hx
    cases hst : x.state <;>
      simp [AsyncResult.ready, AsyncResult.successful, AsyncResult.failed,
        hst] at hr ⊢
  · unfold collect
    rw [List.length_map, ← List.countP_eq_length_filter]
  · unfold collect
    exact (List.filter_sublist hs).map AsyncResult.get

/-- C2, instantiated on a terminal batch of two successes surrounding a
failure. -/
theorem collect_terminal_batch_holds :
    (∀ x ∈ [handleDoneA, handleFailed, handleDoneB], x.ready = true) ∧
    (collect [handleDoneA, handleFailed, handleDoneB] =
      ([handleDoneA, handleFailed, handleDoneB].filter
          (fun x => x.successful)).map AsyncResult.get ∧
     (collect [handleDoneA, handleFailed, handleDoneB]).length =
       [handleDoneA, handleFailed, handleDoneB].countP (fun x => !x.failed) ∧
     (collect [handleDoneA, handleFailed, handleDoneB]).Sublist
       ([handleDoneA, handleFailed, handleDoneB].map AsyncResult.get)) :=
  ⟨by decide,
   collect_terminal_batch [handleDoneA, handleFailed, handleDoneB]
     (by decide)⟩

/-- C8: the submission loop submits exactly one job per item and the
returned handle list is the item list mapped through submission: its
length equals the number of items and its i-th handle is the submission
of the i-th item. -/
theorem submitAll_correspondence {I R : Type} (async_function : I → Trace R)
    (async_list : List I) :
    submitAll async_function async_list = async_list.map async_function ∧
    (submitAll async_function async_list).length = async_list.length ∧
    ∀ i : Nat, (submitAll async_function async_list)[i]? =
      Option.map async_function async_list[i]? := by
  have h : submitAll async_function async_list =
      async_list.map async_function := by
    unfold submitAll
    rw [foldl_append_map]
    rfl
  refine ⟨h, ?_, ?_⟩
  · rw [h, List.length_map]
  · intro i
    rw [h, List.getElem?_map]

/-- C6: for every `max_centroid`, the clustering sweep submits exactly
one job per cluster-count value of `range(2, max_centroid)` — one job
per `v` with `2 ≤ v < max_centroid`, none otherwise — and every
submission carries the shared `all_functions` argument together with its
own cluster-count value. -/
theorem cluster_sweep_coverage {A : Type}
    (backend : A → Nat → Trace ResultRecord) (all_functions : A)
    (max_centroid : Nat) :
    submitClusters backend all_functions max_centroid =
      (clusterJobArgs all_functions max_centroid).map
        (fun p => backend p.1 p.2) ∧
    (∀ p ∈ clusterJobArgs all_functions max_centroid,
      p.1 = all_functions) ∧
    ∀ v : Nat, (clusterJobArgs all_functions max_centroid).countP
        (fun p => p.2 == v) =
      if 2 ≤ v ∧ v < max_centroid then 1 else 0 := by
  refine ⟨?_, ?_, ?_⟩
  · unfold submitClusters clusterJobArgs
    rw [foldl_append_map, List.map_map]
    rfl
  · intro p hp
    rcases List.mem_map.mp hp with ⟨item, hitem, rfl⟩
    rfl
  · intro v
    unfold clusterJobArgs pyRangeFrom2
    rw [List.countP_map]
    show (List.range' 2 (max_centroid - 2)).count v = _
    by_cases hv : 2 ≤ v ∧ v < max_centroid
    · rw [if_pos hv]
      refine List.count_eq_one_of_mem (List.nodup_range' 2 (max_centroid - 2)) ?_
      rw [List.mem_range'_1]
      omega
    · rw [if_neg hv]
      apply List.count_eq_zero_of_not_mem
      rw [List.mem_range'_1]
      omega

theorem pollLoop_exit_cond {R : Type} {hs : List (Trace R)} :
    ∀ t0 fuel t, (pollLoop hs t0 fuel).2 = some t →
      allTerminal hs t = true := by
  intro t0 fuel
  induction fuel generalizing t0 with
  | zero => intro t hexit; cases hexit
  | succ f ih =>
    intro t hexit
    by_cases hat : allTerminal hs t0
    · simp only [pollLoop, hat, if_pos] at hexit
      cases hexit
      exact hat
    · simp only [pollLoop, hat, Bool.false_eq_true, if_neg,
        not_false_iff] at hexit
      exact ih (t0 + 1) t hexit

theorem clusterLoop_exit_cond {hs : List (Trace ResultRecord)} :
    ∀ done t0 fuel t,
      (clusterLoop hs done t0 fuel).2.2 = some (Except.ok t) →
      allTerminal hs t = true := by
  intro done t0 fuel
  induction fuel generalizing t0 done with
  | zero => intro t hexit; cases hexit
  | succ f ih =>
    intro t hexit
    by_cases hat : allTerminal hs t0
    · simp only [clusterLoop, hat, if_pos] at hexit
      rw [(Except.ok.inj (Option.some.inj hexit)).symm]
      exact hat
    · simp only [clusterLoop, hat, Bool.false_eq_true, if_neg,
        not_false_iff] at hexit
      rcases hc2 : (check_iter_status (hs.map (fun h => h t0)) done).2
        with _ | out
      · rw [hc2] at hexit
        exact ih _ (t0 + 1) t hexit
      · simp only [hc2] at hexit
        rcases herr : out.err with _ | e
        · simp only [herr] at hexit
          exact ih _ (t0 + 1) t hexit
        · simp only [herr] at hexit
          exact Except.noConfusion (Option.some.inj hexit)

theorem clusterLoop_exits_of_allTerminal {hs : List (Trace ResultRecord)}
    (k : Nat) :
    ∀ t done, allTerminal hs (t + k) = true →
      (clusterLoop hs done t (k + 1)).2.2.isSome = true := by
  induction k with
  | zero =>
    intro t done hat
    rw [Nat.add_zero] at hat
    simp [clusterLoop, hat]
  | succ k ih =>
    intro t done hat
    by_cases h0 : allTerminal hs t
    · simp [clusterLoop, h0]
    · simp only [clusterLoop, h0, Bool.false_eq_true, if_neg, not_false_iff]
      rcases hc2 : (check_iter_status (hs.map (fun h => h t)) done).2
        with _ | out
      · simp only [hc2]
        exact ih (t + 1) _
          (by rw [show t + 1 + k = t + (k + 1) by omega]; exact hat)
      · rcases herr : out.err with _ | e
        · simp only [hc2, herr]
          exact ih (t + 1) _
            (by rw [show t + 1 + k = t + (k + 1) by omega]; exact hat)
        · simp [hc2, herr]

/-- C5 (amended): both loops reach their guard exit only with every
handle terminal, and there is no timeout.  For `async_and_iter` the
original claim stands: under eventually-terminal, stable handles some
fuel makes the loop exit, and with a never-terminal handle it never
returns.  For `async_and_iter_clusters` the loop can also abort early,
because an error raised by the Reporter propagates out of
`check_iter_status`: under eventually-terminal, stable handles the loop
still ends within some fuel (by guard exit or by abort), and with a
never-terminal handle it never exits normally through the guard. -/
theorem polling_termination {R : Type} {hs : List (Trace R)}
    {cs : List (Trace ResultRecord)}
    (hst : ∀ h ∈ hs, terminalStable h)
    (cst : ∀ h ∈ cs, terminalStable h) :
    (∀ t0 fuel t, (pollLoop hs t0 fuel).2 = some t →
      allTerminal hs t = true) ∧
    ((∀ h ∈ hs, ∃ t, (h t).ready = true) →
      ∃ fuel, (pollLoop hs 0 fuel).2.isSome = true) ∧
    ((∃ h ∈ hs, ∀ t, (h t).ready = false) →
      ∀ fuel, (pollLoop hs 0 fuel).2 = none) ∧
    (∀ done t0 fuel t,
      (clusterLoop cs done t0 fuel).2.2 = some (Except.ok t) →
      allTerminal cs t = true) ∧
    ((∀ h ∈ cs, ∃ t, (h t).ready = true) →
      ∃ fuel, (clusterLoop cs [] 0 fuel).2.2.isSome = true) ∧
    ((∃ h ∈ cs, ∀ t, (h t).ready = false) →
      ∀ done fuel t,
        (clusterLoop cs done 0 fuel).2.2 ≠ some (Except.ok t)) := by
  refine ⟨pollLoop_exit_cond, ?_, ?_, clusterLoop_exit_cond, ?_, ?_⟩
  · intro hev
    rcases exists_allTerminal hst hev with ⟨T, hT⟩
    exact ⟨T + 1, pollLoop_exits_of_allTerminal T 0
      (by rw [Nat.zero_add]; exact hT)⟩
  · rintro ⟨h, hm, hnever⟩ fuel
    exact pollLoop_stuck hm hnever 0 fuel
  · intro hev
    rcases exists_allTerminal cst hev with ⟨T, hT⟩
    exact ⟨T + 1, clusterLoop_exits_of_allTerminal T 0 []
      (by rw [Nat.zero_add]; exact hT)⟩
  · rintro ⟨h, hm, hnever⟩ done fuel t hok
    have hterm := clusterLoop_exit_cond done 0 fuel t hok
    have hb := List.all_eq_true.mp hterm h hm
    rw [hnever t] at hb
    cases hb

/-- C3 (amended): with handles that stay terminal once terminal, the
counts reported to the progress bar are non-decreasing across
iterations, but every reported count is strictly below the number of
handles: the loop body, which does the reporting, runs only while some
handle is still non-terminal, and the loop exits without a final
full-count report. -/
theorem pollLoop_progress_mono {R : Type} {hs : List (Trace R)}
    (hst : ∀ h ∈ hs, terminalStable h) (fuel : Nat) :
    List.Chain' (fun a b => a ≤ b) (pollLoop hs 0 fuel).1 ∧
    ∀ c ∈ (pollLoop hs 0 fuel).1, c < hs.length :=
  ⟨pollLoop_reports_chain hst 0 fuel, pollLoop_reports_lt 0 fuel⟩

/-- C3, counterexample to the claim as stated: one handle, pending at
iteration 0 and successful from iteration 1 on.  The loop exits (at
iteration 1, with the handle terminal), yet the only count ever reported
to the progress bar is 0: the reported terminal-count never reaches the
number of handles, 1. -/
theorem pollLoop_skips_final_report :
    (pollLoop [traceLate] 0 5).1 = [0] ∧
    (pollLoop [traceLate] 0 5).2 = some 1 ∧
    allTerminal [traceLate] 1 = true ∧
    ([traceLate] : List (Trace ResultRecord)).length = 1 ∧
    ((pollLoop [traceLate] 0 5).1.contains 1) = false := by
  decide

/-- C3 (amended), instantiated on the pending-then-successful handle:
its reports are the non-decreasing list of counts strictly below 1. -/
theorem pollLoop_progress_mono_holds :
    (∀ h ∈ [traceLate], terminalStable h) ∧
    (List.Chain' (fun a b => a ≤ b) (pollLoop [traceLate] 0 5).1 ∧
     ∀ c ∈ (pollLoop [traceLate] 0 5).1,
       c < ([traceLate] : List (Trace ResultRecord)).length) := by
  have hstab : ∀ h ∈ [traceLate], terminalStable h := by
    intro h hm
    rw [List.mem_singleton.mp hm]
    intro t hr
    match t with
    | 0 => exact absurd hr (by decide)
    | n + 1 => rfl
  exact ⟨hstab, pollLoop_progress_mono hstab 5⟩

/-- C5, counterexample to the claim as stated for the cluster loop: two
handles that both become terminal (the second from iteration 1 on)
still abort the loop during iteration 0 — the first fresh result
invokes the Reporter, whose `NameError` propagates — so the loop ends
without reaching the all-terminal guard exit; and beside a successful
handle, a never-terminal handle does not keep the loop from returning:
it aborts the same way instead of polling forever. -/
theorem clusterLoop_aborts_mid_poll :
    (clusterLoop [traceNow, traceLate] [] 0 5).2.2 =
      some (Except.error (PyErr.nameError "plt")) ∧
    allTerminal [traceNow, traceLate] 1 = true ∧
    (clusterLoop [traceNow, traceNever] [] 0 5).2.2 =
      some (Except.error (PyErr.nameError "plt")) ∧
    (traceNever 0).ready = false :=
  ⟨rfl, rfl, rfl, rfl⟩

/-- C5 (amended), instantiated with a single already-successful job in
each workflow's batch. -/
theorem polling_termination_holds :
    (∀ h ∈ [traceNow], terminalStable h) ∧
    ((∀ t0 fuel t, (pollLoop [traceNow] t0 fuel).2 = some t →
        allTerminal [traceNow] t = true) ∧
     ((∀ h ∈ [traceNow], ∃ t, (h t).ready = true) →
       ∃ fuel, (pollLoop [traceNow] 0 fuel).2.isSome = true) ∧
     ((∃ h ∈ [traceNow], ∀ t, (h t).ready = false) →
       ∀ fuel, (pollLoop [traceNow] 0 fuel).2 = none) ∧
     (∀ done t0 fuel t,
       (clusterLoop [traceNow] done t0 fuel).2.2 = some (Except.ok t) →
       allTerminal [traceNow] t = true) ∧
     ((∀ h ∈ [traceNow], ∃ t, (h t).ready = true) →
       ∃ fuel, (clusterLoop [traceNow] [] 0 fuel).2.2.isSome = true) ∧
     ((∃ h ∈ [traceNow], ∀ t, (h t).ready = false) →
       ∀ done fuel t,
         (clusterLoop [traceNow] done 0 fuel).2.2 ≠
           some (Except.ok t))) := by
  have hstab : ∀ h ∈ [traceNow], terminalStable h := by
    intro h hm
    rw [List.mem_singleton.mp hm]
    intro t _
    rfl
  exact ⟨hstab, polling_termination hstab hstab⟩

theorem display_scores_list_eq (done_list : List ResultRecord)
    (per_row : Nat) :
    display_scores_list done_list per_row true =
      ⟨done_list.mergeSort (fun a b => a.score ≤ b.score),
       some (done_list.mergeSort (fun a b => a.count ≤ b.count)),
       some (PyErr.nameError "plt")⟩ := rfl

theorem mergeSort_score_sorted (l : List ResultRecord) :
    List.Pairwise (fun a b : ResultRecord => a.score ≤ b.score)
      (l.mergeSort (fun a b => a.score ≤ b.score)) := by
  refine List.Pairwise.imp (fun h => of_decide_eq_true h)
    (List.sorted_mergeSort ?_ ?_ l)
  · intro a b c hab hbc
    exact decide_eq_true
      (le_trans (of_decide_eq_true hab) (of_decide_eq_true hbc))
  · intro a b
    rcases le_total a.score b.score with h | h <;> simp [h]

theorem mergeSort_count_sorted (l : List ResultRecord) :
    List.Pairwise (fun a b : ResultRecord => a.count ≤ b.count)
      (l.mergeSort (fun a b => a.count ≤ b.count)) := by
  refine List.Pairwise.imp (fun h => of_decide_eq_true h)
    (List.sorted_mergeSort ?_ ?_ l)
  · intro a b c hab hbc
    exact decide_eq_true
      (Nat.le_trans (of_decide_eq_true hab) (of_decide_eq_true hbc))
  · intro a b
    rcases Nat.le_total a.count b.count with h | h <;> simp [h]

/-- C7: on any non-empty result list, the Reporter builds its summary
table from the results stably sorted ascending by the `score` key, and
independently sorts the same results ascending by the `count` key for
the plot view; both views are fresh reorderings (permutations) of the
input, which itself is left as it was. -/
theorem display_scores_list_sorting (done_list : List ResultRecord)
    (hne : done_list ≠ []) :
    (display_scores_list done_list 2 true).table.Perm done_list ∧
    List.Pairwise (fun a b : ResultRecord => a.score ≤ b.score)
      (display_scores_list done_list 2 true).table ∧
    (display_scores_list done_list 2 true).plotList =
      some (done_list.mergeSort (fun a b => a.count ≤ b.count)) ∧
    (done_list.mergeSort (fun a b => a.count ≤ b.count)).Perm done_list ∧
    List.Pairwise (fun a b : ResultRecord => a.count ≤ b.count)
      (done_list.mergeSort (fun a b => a.count ≤ b.count)) := by
  rw [display_scores_list_eq]
  exact ⟨List.mergeSort_perm done_list _, mergeSort_score_sorted done_list,
    rfl, List.mergeSort_perm done_list _, mergeSort_count_sorted done_list⟩

/-- C7, instantiated on a two-element result list arriving in
score-descending, count-descending order. -/
theorem display_scores_list_sorting_holds :
    ([recB, recA] : List ResultRecord) ≠ [] ∧
    ((display_scores_list [recB, recA] 2 true).table.Perm [recB, recA] ∧
     List.Pairwise (fun a b : ResultRecord => a.score ≤ b.score)
       (display_scores_list [recB, recA] 2 true).table ∧
     (display_scores_list [recB, recA] 2 true).plotList =
       some (List.mergeSort [recB, recA] (fun a b => a.count ≤ b.count)) ∧
     (List.mergeSort [recB, recA] (fun a b => a.count ≤ b.count)).Perm
       [recB, recA] ∧
     List.Pairwise (fun a b : ResultRecord => a.count ≤ b.count)
       (List.mergeSort [recB, recA] (fun a b => a.count ≤ b.count))) :=
  ⟨by decide, display_scores_list_sorting [recB, recA] (by decide)⟩

/-- C9: the module never binds the name `plt`, so the plot branch taken
under the default `plot_it=True` raises `NameError` — after the sorted
table has been produced — and, since `check_iter_status` calls
`display_scores_list` with the defaults, every Reporter invocation it
makes raises that `NameError`. -/
theorem display_scores_list_plt_nameError (done_list : List ResultRecord)
    (hne : done_list ≠ [])
    (async_items : List (AsyncResult ResultRecord))
    (seen : List ResultRecord) :
    "plt" ∉ moduleGlobals ∧
    (display_scores_list done_list 2 true).err =
      some (PyErr.nameError "plt") ∧
    (display_scores_list done_list 2 true).table =
      done_list.mergeSort (fun a b => a.score ≤ b.score) ∧
    (∀ out ∈ (check_iter_status async_items seen).2,
      out.err = some (PyErr.nameError "plt")) := by
  refine ⟨by decide, ?_, ?_, ?_⟩
  · rw [display_scores_list_eq]
  · rw [display_scores_list_eq]
  · intro out hout
    simp only [check_iter_status] at hout
    split at hout
    · obtain rfl := Option.mem_some_iff.mp hout
      rw [display_scores_list_eq]
    · cases hout

/-- C9, instantiated: a non-empty seen-list, and a sweep in which a
successful handle brings a result not yet seen, so the Reporter runs and
raises. -/
theorem display_scores_list_plt_nameError_holds :
    ([recA] : List ResultRecord) ≠ [] ∧
    ("plt" ∉ moduleGlobals ∧
     (display_scores_list [recA] 2 true).err =
       some (PyErr.nameError "plt") ∧
     (display_scores_list [recA] 2 true).table =
       List.mergeSort [recA] (fun a b => a.score ≤ b.score) ∧
     (∀ out ∈ (check_iter_status [handleDoneB] [recA]).2,
       out.err = some (PyErr.nameError "plt"))) :=
  ⟨by decide, display_scores_list_plt_nameError [recA] (by decide)
    [handleDoneB] [recA]⟩

/-- C10: with an empty item list, `async_and_iter` submits nothing,
reports no progress, exits its loop at iteration 0 (so it never sleeps)
and returns the empty list; with `max_centroid ≤ 2`,
`async_and_iter_clusters` likewise submits nothing, never invokes the
Reporter, exits at iteration 0 and returns the empty list. -/
theorem empty_batch_edge {I R A : Type} (async_function : I → Trace R)
    (backend : A → Nat → Trace ResultRecord) (all_functions : A)
    (fuel : Nat) (hf : 1 ≤ fuel) (max_centroid : Nat)
    (hm : max_centroid ≤ 2) :
    async_and_iter async_function ([] : List I) fuel = ([], some []) ∧
    (pollLoop (submitAll async_function ([] : List I)) 0 fuel).2 = some 0 ∧
    submitClusters backend all_functions max_centroid = [] ∧
    async_and_iter_clusters backend all_functions max_centroid fuel =
      ([], some (Except.ok [])) ∧
    (clusterLoop (submitClusters backend all_functions max_centroid)
      [] 0 fuel).2.2 = some (Except.ok 0) := by
  obtain ⟨f, rfl⟩ : ∃ f, fuel = f + 1 := ⟨fuel - 1, by omega⟩
  have hcs : submitClusters backend all_functions max_centroid = [] := by
    unfold submitClusters pyRangeFrom2
    rw [show max_centroid - 2 = 0 by omega]
    rfl
  refine ⟨rfl, rfl, hcs, ?_, ?_⟩
  · simp only [async_and_iter_clusters, hcs]
    rfl
  · rw [hcs]
    rfl

/-- C10, instantiated: zero work items with one unit of fuel, and a
cluster sweep with `max_centroid = 2`. -/
theorem empty_batch_edge_holds :
    1 ≤ 1 ∧ 2 ≤ 2 ∧
    (async_and_iter (fun _ : Nat => traceNow) ([] : List Nat) 1 =
      ([], some []) ∧
     (pollLoop (submitAll (fun _ : Nat => traceNow) ([] : List Nat))
       0 1).2 = some 0 ∧
     submitClusters (fun _ _ => traceNow) (0 : Nat) 2 = [] ∧
     async_and_iter_clusters (fun _ _ => traceNow) (0 : Nat) 2 1 =
       ([], some (Except.ok [])) ∧
     (clusterLoop (submitClusters (fun _ _ => traceNow) (0 : Nat) 2)
       [] 0 1).2.2 = some (Except.ok 0)) :=
  ⟨Nat.le_refl 1, Nat.le_refl 2,
   empty_batch_edge (fun _ : Nat => traceNow) (fun _ _ => traceNow) 0 1
     (Nat.le_refl 1) 2 (Nat.le_refl 2)⟩
